import Mathlib

/-!
# Verification of the Tor-crawler core against its specification

This file gives a shallow embedding, in Lean 4, of the crawl engine and its
collaborators from the `Tor-crawler` repository (`src/crawler.py`,
`src/utils.py`, `src/parser.py`, `src/tor_client.py`,
`src/storage/json_storage.py`, `src/storage/sqlite_storage.py`), together
with theorems settling the specification's claims about them.

Python strings are modelled as Lean `String` (operating on the underlying
`List Char`), Python `set` as a membership-deduplicated `List`, Python `dict`
as an association list, and Python exceptions as `Except`/`Option` results.
The pieces of CPython's `urllib.parse` that the source calls (`urlparse`,
`urljoin`, `urldefrag`, `.hostname`) are embedded following CPython's
`Lib/urllib/parse.py` (3.11-era): scheme splitting, netloc splitting with the
bracketed-host mismatch error, fragment/query splitting, path-parameter
splitting, and relative-reference resolution.  The removal of the unsafe
bytes `\t`, `\r`, `\n` performed by CPython's `urlsplit` is modelled; the
IPv6 content validation of the newest CPython releases is not (no claim
involves bracketed hosts).
-/

namespace TorCrawler

/-! ## Basic character/string helpers mirroring Python primitives -/

/-- The characters removed anywhere in a URL by CPython `urlsplit`
(`_UNSAFE_URL_BYTES_TO_REMOVE = ["\t", "\r", "\n"]`). -/
def isUnsafeUrlByte (c : Char) : Bool :=
  c == '\t' || c == '\r' || c == '\n'

/-- The WHATWG C0-control-or-space characters (codepoints `0x00`–`0x20`)
that CPython `urlsplit` strips from the front of the URL. -/
def isC0ControlOrSpace (c : Char) : Bool :=
  c.val ≤ 0x20

/-- CPython `urlsplit`'s input sanitization: `lstrip` the C0-control-or-space
characters, then remove the unsafe bytes everywhere. -/
def urlSanitize (l : List Char) : List Char :=
  (l.dropWhile isC0ControlOrSpace).filter (fun c => !isUnsafeUrlByte c)

/-- Characters allowed in a URL scheme after the first (CPython
`scheme_chars`). -/
def isSchemeChar (c : Char) : Bool :=
  c.isAlpha || c.isDigit || c == '+' || c == '-' || c == '.'

/-- `s.split(sep, 1)` on char lists: the part before the first occurrence of
`sep`, and the part after it (everything, and `[]`, when `sep` is absent). -/
def splitOnFirst (sep : Char) (l : List Char) : List Char × List Char :=
  (l.takeWhile (fun c => c != sep), (l.dropWhile (fun c => c != sep)).drop 1)

/-- `netloc.rpartition(sep)[2]` on char lists: the segment after the last
occurrence of `sep` (the whole list when `sep` is absent). -/
def afterLast (sep : Char) (l : List Char) : List Char :=
  (l.reverse.takeWhile (fun c => c != sep)).reverse

/-- `url.rstrip('/')` on char lists: remove every trailing `'/'`. -/
def rstripSlashes (l : List Char) : List Char :=
  (l.reverse.dropWhile (fun c => c == '/')).reverse

/-! ## CPython `urllib.parse` model -/

/-- The six components of CPython `urlparse`'s `ParseResult`. -/
structure UrlParts where
  scheme : List Char
  netloc : List Char
  path : List Char
  params : List Char
  query : List Char
  fragment : List Char
  deriving Repr, DecidableEq

instance : DecidableEq (Except Unit UrlParts) := fun a b =>
  match a, b with
  | .ok x, .ok y =>
    if h : x = y then isTrue (by rw [h]) else isFalse (by intro hh; cases hh; exact h rfl)
  | .error x, .error y =>
    if h : x = y then isTrue (by rw [h]) else isFalse (by intro hh; cases hh; exact h rfl)
  | .ok _, .error _ => isFalse (by intro h; cases h)
  | .error _, .ok _ => isFalse (by intro h; cases h)

/-- Scheme splitting step of CPython `urlsplit`: if the text before the first
`':'` is a nonempty valid scheme starting with a letter, return the
lowercased scheme and the remainder; otherwise the default scheme and the
whole input. -/
def splitScheme (l : List Char) (defScheme : List Char) : List Char × List Char :=
  match l.findIdx? (fun c => c == ':') with
  | some i =>
    if i != 0 && (match l.head? with | some c => c.isAlpha | none => false)
        && (l.take i).all isSchemeChar then
      ((l.take i).map Char.toLower, l.drop (i + 1))
    else (defScheme, l)
  | none => (defScheme, l)

/-- Netloc splitting step of CPython `urlsplit` (`_splitnetloc`): when the
remainder starts with `"//"`, the netloc runs until the first of
`'/'`, `'?'`, `'#'`. -/
def splitNetloc (l : List Char) : List Char × List Char :=
  match l with
  | '/' :: '/' :: rest =>
    (rest.takeWhile (fun c => !(c == '/' || c == '?' || c == '#')),
     rest.dropWhile (fun c => !(c == '/' || c == '?' || c == '#')))
  | _ => ([], l)

/-- CPython `urlsplit` raises `ValueError` when the netloc contains `'['`
without `']'` or vice versa. -/
def bracketMismatch (netloc : List Char) : Bool :=
  netloc.contains '[' != netloc.contains ']'

/-- CPython `_splitparams`: split path parameters after `';'` in the last
path segment. Only called when `';'` occurs in the path. -/
def splitParams (path : List Char) : List Char × List Char :=
  if path.contains '/' then
    let pre := (path.reverse.dropWhile (fun c => c != '/')).reverse
    let seg := (path.reverse.takeWhile (fun c => c != '/')).reverse
    if seg.contains ';' then
      (pre ++ seg.takeWhile (fun c => c != ';'), (seg.dropWhile (fun c => c != ';')).drop 1)
    else (path, [])
  else
    (path.takeWhile (fun c => c != ';'), (path.dropWhile (fun c => c != ';')).drop 1)

/-- Schemes for which CPython `urlparse` splits path parameters
(`uses_params`). -/
def usesParams : List (List Char) :=
  ["", "ftp", "hdl", "prospero", "http", "imap", "https", "shttp", "rtsp",
   "rtspu", "sip", "sips", "mms", "sftp", "tel"].map String.data

/-- Schemes that support relative references (CPython `uses_relative`). -/
def usesRelative : List (List Char) :=
  ["", "ftp", "http", "gopher", "nntp", "imap", "wais", "file", "https",
   "shttp", "mms", "prospero", "rtsp", "rtspu", "sftp", "svn", "svn+ssh",
   "ws", "wss"].map String.data

/-- Schemes that use a network location (CPython `uses_netloc`). -/
def usesNetloc : List (List Char) :=
  ["", "ftp", "http", "gopher", "nntp", "telnet", "imap", "wais", "file",
   "mms", "https", "shttp", "snews", "prospero", "rtsp", "rtspu", "rsync",
   "svn", "svn+ssh", "sftp", "nfs", "git", "git+ssh", "ws", "wss"].map String.data

/-- CPython `urlsplit(url, scheme)` with `allow_fragments=True`; the
`ValueError` on mismatched netloc brackets becomes `Except.error`. -/
def urlsplitE (url0 : List Char) (defScheme : List Char) : Except Unit UrlParts :=
  let (scheme, r1) := splitScheme (urlSanitize url0) defScheme
  let (netloc, r2) := splitNetloc r1
  if bracketMismatch netloc then .error () else
  let (r3, fragment) := splitOnFirst '#' r2
  let (path, query) := splitOnFirst '?' r3
  .ok { scheme := scheme, netloc := netloc, path := path, params := [],
        query := query, fragment := fragment }

/-- CPython `urlparse(url, scheme)`: `urlsplit` plus path-parameter
splitting for schemes in `uses_params`. -/
def urlparseE (url : List Char) (defScheme : List Char) : Except Unit UrlParts :=
  match urlsplitE url defScheme with
  | .error e => .error e
  | .ok s =>
    if usesParams.contains s.scheme && s.path.contains ';' then
      let (p, ps) := splitParams s.path
      .ok { s with path := p, params := ps }
    else .ok s

/-- CPython `ParseResult.hostname`: strip userinfo before the last `'@'`,
take the bracketed host or the part before `':'`, lowercase; `None` when
empty. -/
def hostnameOfNetloc (netloc : List Char) : Option String :=
  let hostinfo := afterLast '@' netloc
  let host :=
    if hostinfo.contains '[' then
      ((hostinfo.dropWhile (fun c => c != '[')).drop 1).takeWhile (fun c => c != ']')
    else hostinfo.takeWhile (fun c => c != ':')
  if host.isEmpty then none else some (String.mk (host.map Char.toLower))

/-- `urlparse(url).hostname` for a `String` URL; parse failure gives `none`. -/
def urlHostname (url : String) : Option String :=
  match urlparseE url.data [] with
  | .error _ => none
  | .ok p => hostnameOfNetloc p.netloc

/-- CPython `urlunsplit`. -/
def urlunsplit (scheme netloc path query fragment : List Char) : List Char :=
  let url := path
  let url :=
    if !netloc.isEmpty || (match url with | '/' :: '/' :: _ => true | _ => false) then
      let url := if !url.isEmpty && url.head? != some '/' then '/' :: url else url
      '/' :: '/' :: netloc ++ url
    else url
  let url := if !scheme.isEmpty then scheme ++ ':' :: url else url
  let url := if !query.isEmpty then url ++ '?' :: query else url
  if !fragment.isEmpty then url ++ '#' :: fragment else url

/-- CPython `urlunparse`. -/
def urlunparse (p : UrlParts) : List Char :=
  let path := if !p.params.isEmpty then p.path ++ ';' :: p.params else p.path
  urlunsplit p.scheme p.netloc path p.query p.fragment

/-- `segments[1:-1] = filter(None, segments[1:-1])` in CPython `urljoin`:
drop empty segments, keeping the first and last. -/
def filterMiddle (l : List (List Char)) : List (List Char) :=
  match l with
  | [] => []
  | [a] => [a]
  | a :: rest =>
    a :: (rest.dropLast.filter (fun s => !s.isEmpty)) ++ [rest.getLastD []]

/-- The `'.'`/`'..'` segment resolution loop of CPython `urljoin`. -/
def resolveSegments (segments : List (List Char)) : List (List Char) :=
  segments.foldl
    (fun acc seg =>
      if seg == ['.', '.'] then acc.dropLast
      else if seg == ['.'] then acc
      else acc ++ [seg])
    []

/-- The body of CPython `urljoin` after both URLs have been parsed. -/
def urljoinCore (bp up : UrlParts) (url : List Char) : List Char :=
  if up.scheme != bp.scheme || !(usesRelative.contains up.scheme) then url
  else if usesNetloc.contains up.scheme && !up.netloc.isEmpty then
    urlunparse up
  else
    let netloc := if usesNetloc.contains up.scheme then bp.netloc else up.netloc
    if up.path.isEmpty && up.params.isEmpty then
      let query := if up.query.isEmpty then bp.query else up.query
      urlunparse { scheme := up.scheme, netloc := netloc, path := bp.path,
                   params := bp.params, query := query, fragment := up.fragment }
    else
      let baseParts := bp.path.splitOn '/'
      let baseParts := if baseParts.getLastD [] != [] then baseParts.dropLast else baseParts
      let segments :=
        if up.path.head? == some '/' then up.path.splitOn '/'
        else filterMiddle (baseParts ++ up.path.splitOn '/')
      let resolved := resolveSegments segments
      let resolved :=
        if segments.getLastD [] == ['.'] || segments.getLastD [] == ['.', '.'] then
          resolved ++ [[]]
        else resolved
      let joined := List.intercalate ['/'] resolved
      let path := if joined.isEmpty then ['/'] else joined
      urlunparse { scheme := up.scheme, netloc := netloc, path := path,
                   params := up.params, query := up.query, fragment := up.fragment }

/-- CPython `urljoin(base, url)`; parse errors propagate. -/
def urljoinE (base url : List Char) : Except Unit (List Char) :=
  if base.isEmpty then .ok url
  else if url.isEmpty then .ok base
  else
    match urlparseE base [] with
    | .error e => .error e
    | .ok bp =>
      match urlparseE url bp.scheme with
      | .error e => .error e
      | .ok up => .ok (urljoinCore bp up url)

/-- CPython `urldefrag(url)[0]`: when `'#'` occurs, reassemble the parse
result without its fragment; otherwise the URL unchanged. -/
def urldefragE (url : List Char) : Except Unit (List Char) :=
  if url.contains '#' then
    match urlparseE url [] with
    | .error e => .error e
    | .ok p => .ok (urlunparse { p with fragment := [] })
  else .ok url

/-! ## `src/utils.py` -/

/-- `utils.is_onion_url`: true when the URL's hostname exists and ends in
`.onion`; any parse failure gives `False`. -/
def is_onion_url (url : String) : Bool :=
  match urlparseE url.data [] with
  | .error _ => false
  | .ok p =>
    match hostnameOfNetloc p.netloc with
    | some h => ".onion".data.isSuffixOf h.data
    | none => false

/-- `utils.extract_domain`: `urlparse(url).hostname`, `None` on failure. -/
def extract_domain (url : String) : Option String :=
  match urlparseE url.data [] with
  | .error _ => none
  | .ok p => hostnameOfNetloc p.netloc

/-- `utils.normalize_url` on char lists: resolve against the base when one is
given, drop the fragment, and `rstrip('/')` the whole URL when the parsed
path is nonempty, not exactly `"/"`, and ends with `'/'`. -/
def normalize_urlE (url : List Char) (base : Option (List Char)) : Except Unit (List Char) :=
  let step1 : Except Unit (List Char) :=
    match base with
    | some b => if b.isEmpty then .ok url else urljoinE b url
    | none => .ok url
  match step1 with
  | .error e => .error e
  | .ok u1 =>
    match urldefragE u1 with
    | .error e => .error e
    | .ok u2 =>
      match urlparseE u2 [] with
      | .error e => .error e
      | .ok p =>
        if !p.path.isEmpty && p.path != ['/'] && p.path.getLast? == some '/' then
          .ok (rstripSlashes u2)
        else .ok u2

/-- `utils.normalize_url`: `None` on parse failure (the `except` branch). -/
def normalize_url (url : String) (base_url : Option String) : Option String :=
  match normalize_urlE url.data (base_url.map String.data) with
  | .ok r => some (String.mk r)
  | .error _ => none

/-- Python `\s` for the ASCII whitespace characters `re.sub(r'\s+', ' ', _)`
collapses (space, tab, newline, carriage return, vertical tab, form feed). -/
def isPyWhitespace (c : Char) : Bool :=
  c == ' ' || c == '\t' || c == '\n' || c == '\r' || c == '\x0b' || c == '\x0c'

/-- `re.sub(r'\s+', ' ', text)`: replace every maximal whitespace run with a
single space.  The flag records whether the previous character was part of a
whitespace run. -/
def collapseWsAux : Bool → List Char → List Char
  | _, [] => []
  | prevWs, c :: rest =>
    if isPyWhitespace c then
      if prevWs then collapseWsAux true rest
      else ' ' :: collapseWsAux true rest
    else c :: collapseWsAux false rest

/-- `re.sub(r'\s+', ' ', text)` as a function on char lists. -/
def collapseWs (l : List Char) : List Char :=
  collapseWsAux false l

/-- Python `str.strip()` restricted to the whitespace characters above. -/
def pyStrip (l : List Char) : List Char :=
  ((l.dropWhile isPyWhitespace).reverse.dropWhile isPyWhitespace).reverse

/-- `utils.sanitize_html_text`: collapse whitespace, strip, and when the
result exceeds `max_length` characters keep the first `max_length` and append
`"..."`. -/
def sanitize_html_text (text : String) (max_length : Nat) : String :=
  if text.isEmpty then "" else
  let t := pyStrip (collapseWs text.data)
  if max_length < t.length then String.mk (t.take max_length ++ "...".data)
  else String.mk t

/-! ## `src/parser.py` -/

/-- `HTMLParser._extract_text_preview` applied to the page text obtained from
the HTML (the BeautifulSoup extraction is outside the embedding); the method
is called with its default `max_length=500`, the configured storage maximum
is never passed. -/
def extract_text_preview (text : String) : String :=
  sanitize_html_text text 500

/-- `HTMLParser.filter_onion_links`: the loop over `links` with its three
`continue` checks, in source order.  `allowed_domains` is the (possibly
empty) configured list; `base_domain` is `None` or a hostname, and Python's
truthiness test `if not follow_external and base_domain:` skips the
same-domain check when `base_domain` is `None` or empty. -/
def optTruthy (o : Option String) : Bool :=
  match o with
  | none => false
  | some s => !s.isEmpty

/-- The hostname-membership test `urlparse(link).hostname in allowed_domains`
(an absent hostname is never a member of a list of strings). -/
def hostnameMem (link : String) (allowed : List String) : Bool :=
  match urlHostname link with
  | some h => allowed.contains h
  | none => false

def filter_onion_links (links : List String) (allowed_domains : List String)
    (follow_external : Bool) (base_domain : Option String) : List String :=
  match links with
  | [] => []
  | link :: rest =>
    if !is_onion_url link then
      filter_onion_links rest allowed_domains follow_external base_domain
    else if !allowed_domains.isEmpty && !hostnameMem link allowed_domains then
      filter_onion_links rest allowed_domains follow_external base_domain
    else if (!follow_external && optTruthy base_domain)
        && (urlHostname link != base_domain) then
      filter_onion_links rest allowed_domains follow_external base_domain
    else
      link :: filter_onion_links rest allowed_domains follow_external base_domain

/-! ## `src/tor_client.py` -/

/-- What the awaited network operation inside `TorClient.fetch` does: a
response arrives (whose body read may itself fail), the request times out
(`asyncio.TimeoutError`), an `aiohttp.ClientError` is raised, or some other
exception is raised. -/
instance : DecidableEq (Except String String) := fun a b =>
  match a, b with
  | .ok x, .ok y =>
    if h : x = y then isTrue (by rw [h]) else isFalse (by intro hh; cases hh; exact h rfl)
  | .error x, .error y =>
    if h : x = y then isTrue (by rw [h]) else isFalse (by intro hh; cases hh; exact h rfl)
  | .ok _, .error _ => isFalse (by intro h; cases h)
  | .error _, .ok _ => isFalse (by intro h; cases h)

inductive NetOutcome where
  | response (finalUrl : String) (status : Nat) (headers : List (String × String))
      (body : Except String String)
  | timeout
  | clientError (msg : String)
  | otherError (msg : String)
  deriving Repr, DecidableEq

/-- The dictionary `TorClient.fetch` returns. -/
structure FetchResult where
  url : String
  status : Nat
  headers : List (String × String)
  content : String
  error : Option String
  deriving Repr, DecidableEq

/-- `TorClient.fetch(url, headers, timeout)`: raises `RuntimeError` when the
session is not initialized (`Except.error`); otherwise every outcome of the
network operation is converted into a result dictionary.  A failed body read
is caught inside and degrades `content` to `""`. -/
def TorClient.fetch (sessionInitialized : Bool) (url : String)
    (headers : List (String × String)) (timeout : Nat) (outcome : NetOutcome) :
    Except String FetchResult :=
  let _ := headers
  let _ := timeout
  if !sessionInitialized then
    .error "TorClient ei ole alustettu. Käytä async with -kontekstia."
  else
    match outcome with
    | .response finalUrl status hdrs body =>
      .ok { url := finalUrl, status := status, headers := hdrs,
            content := (match body with | .ok c => c | .error _ => ""),
            error := none }
    | .timeout =>
      .ok { url := url, status := 0, headers := [], content := "",
            error := some "Timeout" }
    | .clientError m =>
      .ok { url := url, status := 0, headers := [], content := "",
            error := some ("ClientError: " ++ m) }
    | .otherError m =>
      .ok { url := url, status := 0, headers := [], content := "",
            error := some ("Exception: " ++ m) }

/-- The non-response outcomes of the network operation. -/
def NetOutcome.isFailure : NetOutcome → Bool
  | .response _ _ _ _ => false
  | _ => true

/-! ## Page records and Python-set/dict helpers -/

/-- The `page_data` dictionary built by `TorCrawler._crawl_page` and consumed
by both storage backends. -/
structure PageData where
  url : String
  status : Nat
  depth : Nat
  timestamp : String
  error : Option String
  title : String
  text_preview : String
  meta : List (String × String)
  links : List String
  deriving Repr, DecidableEq

/-- Python truthiness of `page_data.get('error')` for an optional string. -/
def errTruthy (o : Option String) : Bool :=
  match o with
  | none => false
  | some s => !s.isEmpty

/-- `set.add`: a Python set modelled as a list deduplicated on insertion. -/
def setAdd (s : List String) (x : String) : List String :=
  if x ∈ s then s else x :: s

/-- `dict.get(d, 0)` on an association list. -/
def counterGet (m : List (String × Nat)) (d : String) : Nat :=
  (m.lookup d).getD 0

/-- `dict[d] = v` on an association list. -/
def counterSet (m : List (String × Nat)) (d : String) (v : Nat) : List (String × Nat) :=
  match m with
  | [] => [(d, v)]
  | (k, x) :: rest => if k == d then (d, v) :: rest else (k, x) :: counterSet rest d v

/-! ## `src/storage/json_storage.py` -/

/-- The mutable statistics dictionary of `JSONStorage`. -/
structure JsonStats where
  total_pages : Nat
  successful : Nat
  errors : Nat
  deriving Repr, DecidableEq

/-- The statistics update shared by `_load_existing_urls` and `save_page`:
increment `total_pages` and exactly one of `errors`/`successful`, chosen by
the truthiness of the record's `error` value. -/
def bumpStats (st : JsonStats) (error : Option String) : JsonStats :=
  { total_pages := st.total_pages + 1,
    successful := st.successful + (if errTruthy error then 0 else 1),
    errors := st.errors + (if errTruthy error then 1 else 0) }

/-- The state of a `JSONStorage` instance: the in-memory visited set and
statistics, and the NDJSON file contents as the list of appended records. -/
structure JsonState where
  visited : List String
  stats : JsonStats
  file : List PageData
  deriving Repr, DecidableEq

/-- `JSONStorage.__init__`: empty visited set and zeroed statistics, with the
given pre-existing file contents. -/
def jsonInit (file : List PageData) : JsonState :=
  { visited := [], stats := { total_pages := 0, successful := 0, errors := 0 },
    file := file }

/-- The fields of one JSON line that `_load_existing_urls` reads:
`data.get('url', '')` and `data.get('error')`. -/
structure LoadedRec where
  url : String
  error : Option String
  deriving Repr, DecidableEq

/-- One iteration of `JSONStorage._load_existing_urls`: a line that fails
JSON decoding (`none`) is skipped; otherwise the URL is added to the visited
set and the statistics are updated. -/
def json_load_line (s : JsonState) (line : Option LoadedRec) : JsonState :=
  match line with
  | none => s
  | some d =>
    { s with visited := setAdd s.visited d.url, stats := bumpStats s.stats d.error }

/-- `JSONStorage._load_existing_urls` over the decoded lines of the file. -/
def json_load_existing (s : JsonState) (lines : List (Option LoadedRec)) : JsonState :=
  lines.foldl json_load_line s

/-- `JSONStorage.save_page`: add the URL to the visited set, update the
statistics, then append the record to the NDJSON file.  The file write can
fail (`writeOk = false`); the exception is swallowed after the in-memory
updates have already happened. -/
def json_save_page (s : JsonState) (p : PageData) (writeOk : Bool) : JsonState :=
  { visited := setAdd s.visited p.url,
    stats := bumpStats s.stats p.error,
    file := if writeOk then s.file ++ [p] else s.file }

/-- `JSONStorage.get_stats` returns (a copy of) the statistics dictionary. -/
def json_get_stats (s : JsonState) : JsonStats :=
  s.stats

/-! ## `src/storage/sqlite_storage.py` -/

/-- One row of the `pages` table (the `AUTOINCREMENT` id and the
`created_at` default are not modelled). -/
structure PageRow where
  url : String
  status : Nat
  title : String
  depth : Nat
  timestamp : String
  text_preview : String
  error : Option String
  meta : List (String × String)
  deriving Repr, DecidableEq

/-- The state of a `SQLiteStorage` instance: the `pages` table rows in rowid
order, the `links` table rows in insertion order, and the in-memory visited
set. -/
structure SqliteState where
  pages : List PageRow
  links : List (String × String)
  visited : List String
  deriving Repr, DecidableEq

/-- The row built from `page_data` by `SQLiteStorage.save_page`. -/
def rowOfPage (p : PageData) : PageRow :=
  { url := p.url, status := p.status, title := p.title, depth := p.depth,
    timestamp := p.timestamp, text_preview := p.text_preview,
    error := p.error, meta := p.meta }

/-- `SQLiteStorage.save_page`: `INSERT OR REPLACE` into `pages` (the
conflicting row with the same unique `url` is deleted and the new row
inserted), a plain `INSERT` into `links` for every link, then the URL is
added to the in-memory visited set. -/
def sqlite_save_page (s : SqliteState) (p : PageData) : SqliteState :=
  { pages := (s.pages.filter (fun r => r.url != p.url)) ++ [rowOfPage p],
    links := s.links ++ p.links.map (fun l => (p.url, l)),
    visited := setAdd s.visited p.url }

/-! ## `src/crawler.py` — the crawl engine

For one run the external collaborators are deterministic functions supplied
as an environment: `fetch` is the result dictionary `TorClient.fetch`
returns for a URL (the engine's configured headers and timeout are fixed for
a run), `parse` is `HTMLParser.parse` on a content/base-URL pair, and
`clock` gives the `datetime.utcnow().isoformat()` value observed by the
n-th processed page.  This models the spec's "fixed seed and fixed link
graph" runs. -/

/-- The result dictionary of `TorClient.fetch` as `_crawl_page` reads it. -/
structure FetchResponse where
  url : String
  status : Nat
  content : String
  error : Option String
  deriving Repr, DecidableEq

/-- The result dictionary of `HTMLParser.parse` as `_crawl_page` reads it. -/
structure ParsedPage where
  title : String
  links : List String
  text_preview : String
  meta : List (String × String)
  deriving Repr, DecidableEq

/-- The deterministic external collaborators of one crawl run. -/
structure CrawlEnv where
  fetch : String → FetchResponse
  parse : String → String → ParsedPage
  clock : Nat → String

/-- The fields of `CrawlerConfig` that the crawl loop consults. -/
structure CrawlerCfg where
  start_url : String
  max_depth : Nat
  max_pages : Nat
  max_pages_per_domain : Nat
  allowed_domains : List String
  follow_external_onion : Bool
  deriving Repr, DecidableEq

/-- The mutable state of a `TorCrawler` instance.  `fetched` and `saves` are
the observation traces: the sequence of URLs passed to `TorClient.fetch` and
the sequence of records passed to `storage.save_page`. -/
structure CrawlerState where
  visited : List String
  queue : List (String × Nat)
  domain_counters : List (String × Nat)
  total_crawled : Nat
  start_domain : Option String
  fetched : List String
  saves : List PageData
  deriving Repr

/-- The URL sequence of the `save_page` calls made so far. -/
def savesUrls (s : CrawlerState) : List String :=
  s.saves.map PageData.url

/-- `TorCrawler._crawl_page(url, depth)`: mark visited and bump the counters
before the network call, fetch, parse and filter on a 200 response with
content, enqueue the filtered links not yet visited at `depth + 1`, and save
the page record unconditionally. -/
def crawl_page (env : CrawlEnv) (cfg : CrawlerCfg) (s : CrawlerState)
    (url : String) (depth : Nat) : CrawlerState :=
  let visited := setAdd s.visited url
  let counters :=
    match extract_domain url with
    | some d => counterSet s.domain_counters d (counterGet s.domain_counters d + 1)
    | none => s.domain_counters
  let response := env.fetch url
  let ok := response.status == 200 && response.content != ""
  let parsed := env.parse response.content url
  let onion_links :=
    if ok then
      filter_onion_links parsed.links cfg.allowed_domains cfg.follow_external_onion
        s.start_domain
    else []
  let page : PageData :=
    { url := url, status := response.status, depth := depth,
      timestamp := env.clock s.total_crawled, error := response.error,
      title := if ok then parsed.title else "",
      text_preview := if ok then parsed.text_preview else "",
      meta := if ok then parsed.meta else [],
      links := onion_links }
  let newEntries :=
    (onion_links.filter (fun l => decide (l ∉ visited))).map (fun l => (l, depth + 1))
  { visited := visited,
    queue := s.queue ++ newEntries,
    domain_counters := counters,
    total_crawled := s.total_crawled + 1,
    start_domain := s.start_domain,
    fetched := s.fetched ++ [url],
    saves := s.saves ++ [page] }

/-- The admission check 3c of the loop: `extract_domain(url)` is non-null
and its counter has reached `max_pages_per_domain`. -/
def quota_blocked (cfg : CrawlerCfg) (s : CrawlerState) (url : String) : Bool :=
  match extract_domain url with
  | some d => cfg.max_pages_per_domain ≤ counterGet s.domain_counters d
  | none => false

/-- `TorCrawler.crawl`: the BFS loop.  Each iteration pops the head entry,
skips it when the URL is already visited, when its depth exceeds
`max_depth`, or when its domain quota is exhausted, and otherwise processes
it with `_crawl_page`.  Termination is by explicit fuel; every run is the
value at some fuel (the loop always terminates since only `max_pages` pages
are processed and skips shrink the queue, so all invariants below are
quantified over the fuel). -/
def crawl (env : CrawlEnv) (cfg : CrawlerCfg) : Nat → CrawlerState → CrawlerState
  | 0, s => s
  | fuel + 1, s =>
    match s.queue with
    | [] => s
    | (url, depth) :: rest =>
      if s.total_crawled < cfg.max_pages then
        let s1 : CrawlerState := { s with queue := rest }
        if url ∈ s1.visited then crawl env cfg fuel s1
        else if cfg.max_depth < depth then crawl env cfg fuel s1
        else if quota_blocked cfg s1 url then crawl env cfg fuel s1
        else crawl env cfg fuel (crawl_page env cfg s1 url depth)
      else s

/-- `TorCrawler.initialize` after the storage has loaded the previously
visited URLs: the visited set is the loaded set, the start domain is
`extract_domain` of the configured start URL, and the raw configured start
URL is enqueued at depth 0 on the otherwise-empty frontier. -/
def initState (cfg : CrawlerCfg) (loaded : List String) : CrawlerState :=
  { visited := loaded,
    queue := [(cfg.start_url, 0)],
    domain_counters := [],
    total_crawled := 0,
    start_domain := extract_domain cfg.start_url,
    fetched := [],
    saves := [] }

/-! ## Helper lemmas about the set/dict models -/

theorem mem_setAdd {s : List String} {x y : String} :
    y ∈ setAdd s x ↔ y = x ∨ y ∈ s := by
  unfold setAdd
  split
  · constructor
    · exact fun h => Or.inr h
    · rintro (rfl | h) <;> assumption
  · exact List.mem_cons

theorem subset_setAdd (s : List String) (x : String) : s ⊆ setAdd s x := by
  intro y hy
  exact mem_setAdd.mpr (Or.inr hy)

theorem mem_setAdd_self (s : List String) (x : String) : x ∈ setAdd s x :=
  mem_setAdd.mpr (Or.inl rfl)

theorem counterGet_counterSet_self (m : List (String × Nat)) (d : String) (v : Nat) :
    counterGet (counterSet m d v) d = v := by
  induction m with
  | nil => simp [counterSet, counterGet, List.lookup]
  | cons kv rest ih =>
    obtain ⟨k, x⟩ := kv
    by_cases h : k = d
    · subst h
      simp [counterSet, counterGet, List.lookup]
    · have hb : (k == d) = false := by simp [h]
      have hb' : (d == k) = false := by simp [Ne.symm h]
      simp only [counterSet, hb, if_false, counterGet, List.lookup, hb'] at ih ⊢
      exact ih

theorem counterGet_counterSet_ne (m : List (String × Nat)) (d d' : String) (v : Nat)
    (h : d ≠ d') : counterGet (counterSet m d v) d' = counterGet m d' := by
  have hb : (d' == d) = false := by simp [Ne.symm h]
  induction m with
  | nil => simp [counterSet, counterGet, List.lookup, hb]
  | cons kv rest ih =>
    obtain ⟨k, x⟩ := kv
    by_cases hk : k = d
    · subst hk
      simp [counterSet, counterGet, List.lookup, hb]
    · have hkb : (k == d) = false := by simp [hk]
      simp only [counterSet, hkb, if_false, counterGet, List.lookup]
      by_cases hk' : d' = k
      · subst hk'
        simp
      · have hk'b : (d' == k) = false := by simp [hk']
        simp only [hk'b, counterGet] at ih ⊢
        exact ih

/-! ## Shape lemmas for `crawl_page` -/

theorem crawl_page_visited (env : CrawlEnv) (cfg : CrawlerCfg) (s : CrawlerState)
    (url : String) (depth : Nat) :
    (crawl_page env cfg s url depth).visited = setAdd s.visited url := rfl

theorem crawl_page_total (env : CrawlEnv) (cfg : CrawlerCfg) (s : CrawlerState)
    (url : String) (depth : Nat) :
    (crawl_page env cfg s url depth).total_crawled = s.total_crawled + 1 := rfl

theorem crawl_page_start_domain (env : CrawlEnv) (cfg : CrawlerCfg) (s : CrawlerState)
    (url : String) (depth : Nat) :
    (crawl_page env cfg s url depth).start_domain = s.start_domain := rfl

theorem crawl_page_fetched (env : CrawlEnv) (cfg : CrawlerCfg) (s : CrawlerState)
    (url : String) (depth : Nat) :
    (crawl_page env cfg s url depth).fetched = s.fetched ++ [url] := rfl

theorem crawl_page_counters (env : CrawlEnv) (cfg : CrawlerCfg) (s : CrawlerState)
    (url : String) (depth : Nat) :
    (crawl_page env cfg s url depth).domain_counters =
      match extract_domain url with
      | some d => counterSet s.domain_counters d (counterGet s.domain_counters d + 1)
      | none => s.domain_counters := rfl

theorem crawl_page_saves (env : CrawlEnv) (cfg : CrawlerCfg) (s : CrawlerState)
    (url : String) (depth : Nat) :
    ∃ p : PageData, (crawl_page env cfg s url depth).saves = s.saves ++ [p] ∧
      p.url = url ∧ p.depth = depth :=
  ⟨_, rfl, rfl, rfl⟩

theorem crawl_page_queue (env : CrawlEnv) (cfg : CrawlerCfg) (s : CrawlerState)
    (url : String) (depth : Nat) :
    ∃ L : List String, (crawl_page env cfg s url depth).queue =
      s.queue ++ L.map (fun l => (l, depth + 1)) :=
  ⟨_, rfl⟩

/-! ## The run invariant of the crawl loop -/

/-- The number of saved page records attributed to domain `d`. -/
def domainSaveCount (s : CrawlerState) (d : String) : Nat :=
  (s.saves.filter (fun p => extract_domain p.url == some d)).length

/-- The invariant maintained by the crawl loop, relative to the initially
loaded visited set `V0`. -/
structure CrawlInv (cfg : CrawlerCfg) (V0 : List String) (s : CrawlerState) : Prop where
  nodup : (savesUrls s).Nodup
  saved_visited : ∀ p ∈ s.saves, p.url ∈ s.visited
  depth_le : ∀ p ∈ s.saves, p.depth ≤ cfg.max_depth
  counter_count : ∀ d, counterGet s.domain_counters d = domainSaveCount s d
  counter_le : ∀ d, counterGet s.domain_counters d ≤ cfg.max_pages_per_domain
  v0_sub : ∀ u ∈ V0, u ∈ s.visited
  no_v0 : ∀ u ∈ V0, u ∉ savesUrls s
  fetched_eq : s.fetched = savesUrls s

theorem crawlInv_setQueue {cfg : CrawlerCfg} {V0 : List String} {s : CrawlerState}
    {q : List (String × Nat)} (h : CrawlInv cfg V0 s) :
    CrawlInv cfg V0 { s with queue := q } :=
  ⟨h.nodup, h.saved_visited, h.depth_le, h.counter_count, h.counter_le,
   h.v0_sub, h.no_v0, h.fetched_eq⟩

theorem crawlInv_initState (cfg : CrawlerCfg) (loaded : List String) :
    CrawlInv cfg loaded (initState cfg loaded) := by
  refine ⟨?_, ?_, ?_, ?_, ?_, ?_, ?_, ?_⟩ <;>
    simp [initState, savesUrls, domainSaveCount, counterGet, List.lookup]

/-- `_crawl_page` preserves the invariant whenever the three admission checks
of the loop let the entry through. -/
theorem crawlInv_crawl_page (env : CrawlEnv) (cfg : CrawlerCfg) (V0 : List String)
    (s : CrawlerState) (url : String) (depth : Nat)
    (hvis : url ∉ s.visited) (hdep : depth ≤ cfg.max_depth)
    (hquo : quota_blocked cfg s url = false)
    (h : CrawlInv cfg V0 s) : CrawlInv cfg V0 (crawl_page env cfg s url depth) := by
  obtain ⟨p, hsaves, hpurl, hpdepth⟩ := crawl_page_saves env cfg s url depth
  have hurl_not_saved : url ∉ savesUrls s := by
    intro hmem
    simp only [savesUrls, List.mem_map] at hmem
    obtain ⟨q, hq, hqurl⟩ := hmem
    exact hvis (hqurl ▸ h.saved_visited q hq)
  have hsavesUrls : savesUrls (crawl_page env cfg s url depth) = savesUrls s ++ [url] := by
    simp [savesUrls, hsaves, hpurl]
  refine ⟨?_, ?_, ?_, ?_, ?_, ?_, ?_, ?_⟩
  · rw [hsavesUrls, List.nodup_append]
    exact ⟨h.nodup, List.nodup_singleton url, by
      intro a ha hb
      simp only [List.mem_singleton] at hb
      exact hurl_not_saved (hb ▸ ha)⟩
  · intro q hq
    rw [hsaves, List.mem_append] at hq
    rw [crawl_page_visited]
    rcases hq with hq | hq
    · exact subset_setAdd _ _ (h.saved_visited q hq)
    · simp only [List.mem_singleton] at hq
      subst hq
      rw [hpurl]
      exact mem_setAdd_self _ _
  · intro q hq
    rw [hsaves, List.mem_append] at hq
    rcases hq with hq | hq
    · exact h.depth_le q hq
    · simp only [List.mem_singleton] at hq
      subst hq
      rw [hpdepth]
      exact hdep
  · intro d
    have hone : ∀ q : PageData, q.url = url →
        (List.filter (fun r => extract_domain r.url == some d) [q]).length =
          (if extract_domain url == some d then 1 else 0) := by
      intro q hq
      by_cases hd : (extract_domain url == some d) = true
      · simp [List.filter_cons, hq, hd]
      · simp [List.filter_cons, hq, hd]
    have hcount : domainSaveCount (crawl_page env cfg s url depth) d =
        domainSaveCount s d + (if extract_domain url == some d then 1 else 0) := by
      simp only [domainSaveCount, hsaves, List.filter_append, List.length_append]
      congr 1
      exact hone p hpurl
    rw [crawl_page_counters, hcount]
    cases hext : extract_domain url with
    | none =>
      have : ((none : Option String) == some d) = false := rfl
      simp [this, h.counter_count d]
    | some d0 =>
      by_cases hdd : d0 = d
      · subst hdd
        rw [counterGet_counterSet_self]
        simp [h.counter_count d0]
      · rw [counterGet_counterSet_ne _ _ _ _ hdd]
        have : (some d0 == some d) = false := by simp [hdd]
        simp [this, h.counter_count d]
  · intro d
    rw [crawl_page_counters]
    cases hext : extract_domain url with
    | none => exact h.counter_le d
    | some d0 =>
      by_cases hdd : d0 = d
      · subst hdd
        rw [counterGet_counterSet_self]
        have hlt : counterGet s.domain_counters d0 < cfg.max_pages_per_domain := by
          by_contra hge
          push_neg at hge
          simp [quota_blocked, hext, hge] at hquo
        omega
      · rw [counterGet_counterSet_ne _ _ _ _ hdd]
        exact h.counter_le d
  · intro u hu
    rw [crawl_page_visited]
    exact subset_setAdd _ _ (h.v0_sub u hu)
  · intro u hu
    rw [hsavesUrls, List.mem_append]
    rintro (hmem | hmem)
    · exact h.no_v0 u hu hmem
    · simp only [List.mem_singleton] at hmem
      subst hmem
      exact hvis (h.v0_sub u hu)
  · rw [crawl_page_fetched, hsavesUrls, h.fetched_eq]

/-- The invariant is preserved by any number of loop iterations. -/
theorem crawlInv_crawl (env : CrawlEnv) (cfg : CrawlerCfg) (V0 : List String) :
    ∀ (fuel : Nat) (s : CrawlerState), CrawlInv cfg V0 s →
      CrawlInv cfg V0 (crawl env cfg fuel s) := by
  intro fuel
  induction fuel with
  | zero => intro s h; exact h
  | succ fuel ih =>
    intro s h
    rw [crawl]
    cases hq : s.queue with
    | nil => exact h
    | cons hd tl =>
      obtain ⟨url, depth⟩ := hd
      by_cases hlt : s.total_crawled < cfg.max_pages
      · simp only [if_pos hlt]
        by_cases hv : url ∈ s.visited
        · rw [if_pos hv]
          exact ih _ (crawlInv_setQueue h)
        · rw [if_neg hv]
          by_cases hdep : cfg.max_depth < depth
          · rw [if_pos hdep]
            exact ih _ (crawlInv_setQueue h)
          · rw [if_neg hdep]
            by_cases hquo : quota_blocked cfg { s with queue := tl } url
            · rw [if_pos hquo]
              exact ih _ (crawlInv_setQueue h)
            · rw [if_neg hquo]
              exact ih _ (crawlInv_crawl_page env cfg V0 _ url depth hv
                (Nat.le_of_not_lt hdep) (by simpa using hquo) (crawlInv_setQueue h))
      · simp only [if_neg hlt]
        exact h

/-- One loop iteration on a head entry whose depth exceeds `max_depth` (and
which passes the visited check reached first) just drops the entry: no other
state component changes. -/
theorem crawl_skip_depth (env : CrawlEnv) (cfg : CrawlerCfg) (fuel : Nat)
    (s : CrawlerState) (url : String) (depth : Nat) (rest : List (String × Nat))
    (hq : s.queue = (url, depth) :: rest) (hlt : s.total_crawled < cfg.max_pages)
    (hv : url ∉ s.visited) (hdep : cfg.max_depth < depth) :
    crawl env cfg (fuel + 1) s = crawl env cfg fuel { s with queue := rest } := by
  rw [crawl, hq]
  simp only [if_pos hlt, if_neg hv, if_pos hdep]

/-- One loop iteration on an admissible head entry whose URL has no
extractable domain processes the entry without any quota check. -/
theorem crawl_admit_no_domain (env : CrawlEnv) (cfg : CrawlerCfg) (fuel : Nat)
    (s : CrawlerState) (url : String) (depth : Nat) (rest : List (String × Nat))
    (hq : s.queue = (url, depth) :: rest) (hlt : s.total_crawled < cfg.max_pages)
    (hv : url ∉ s.visited) (hdep : ¬ cfg.max_depth < depth)
    (hdom : extract_domain url = none) :
    crawl env cfg (fuel + 1) s =
      crawl env cfg fuel (crawl_page env cfg { s with queue := rest } url depth) := by
  have hquo : quota_blocked cfg { s with queue := rest } url = false := by
    simp [quota_blocked, hdom]
  rw [crawl, hq]
  simp only [if_pos hlt, if_neg hv, if_neg hdep, hquo, Bool.false_eq_true, if_false]

/-! ## Concrete fixtures used by the witness theorems -/

/-- A small deterministic environment: every page responds 200 with content
`"page"`, whose parse yields two links. -/
def envW : CrawlEnv :=
  { fetch := fun u => { url := u, status := 200, content := "page", error := none },
    parse := fun _ _ =>
      { title := "t", links := ["http://seed.onion/a", "http://old.onion/x"],
        text_preview := "", meta := [] },
    clock := fun _ => "2024-01-01T00:00:00" }

/-- A small concrete configuration. -/
def cfgW : CrawlerCfg :=
  { start_url := "http://seed.onion/", max_depth := 2, max_pages := 10,
    max_pages_per_domain := 5, allowed_domains := [], follow_external_onion := true }

/-- A loop state whose head frontier entry is at depth 5. -/
def stateW : CrawlerState :=
  { visited := [], queue := [("http://a.onion/x", 5)], domain_counters := [],
    total_crawled := 0, start_domain := none, fetched := [], saves := [] }

/-- A loop state whose head frontier entry has no extractable domain. -/
def stateW2 : CrawlerState :=
  { visited := [], queue := [("nohost", 1)], domain_counters := [],
    total_crawled := 0, start_domain := none, fetched := [], saves := [] }

/-! ## Claims -/

/-- **C1** (confirmed): at-most-once visit.  For every run (any deterministic
environment, configuration, pre-loaded visited set and fuel), the sequence of
`save_page` calls contains no URL twice, the sequence of fetched URLs is
exactly the sequence of saved URLs (so nothing is fetched twice either), and
no URL pre-loaded from the persistence backend is ever fetched or saved. -/
theorem claim_C1_at_most_once_visit (env : CrawlEnv) (cfg : CrawlerCfg)
    (loaded : List String) (fuel : Nat) :
    (savesUrls (crawl env cfg fuel (initState cfg loaded))).Nodup ∧
    (crawl env cfg fuel (initState cfg loaded)).fetched =
      savesUrls (crawl env cfg fuel (initState cfg loaded)) ∧
    ∀ u ∈ loaded, u ∉ savesUrls (crawl env cfg fuel (initState cfg loaded)) := by
  have h := crawlInv_crawl env cfg loaded fuel _ (crawlInv_initState cfg loaded)
  exact ⟨h.nodup, h.fetched_eq, h.no_v0⟩

/-- Witness for C1 at a concrete run: the pre-loaded URL (which the seed
page's links re-discover) is absent from the save trace. -/
theorem claim_C1_at_most_once_visit_witness :
    (savesUrls (crawl envW cfgW 5 (initState cfgW ["http://old.onion/x"]))).Nodup ∧
    "http://old.onion/x" ∉
      savesUrls (crawl envW cfgW 5 (initState cfgW ["http://old.onion/x"])) :=
  ⟨(claim_C1_at_most_once_visit envW cfgW ["http://old.onion/x"] 5).1,
   (claim_C1_at_most_once_visit envW cfgW ["http://old.onion/x"] 5).2.2
     "http://old.onion/x" (by simp)⟩

/-- **C2** (confirmed): depth discipline.  (i) Every entry `_crawl_page`
enqueues carries the discovering page's depth plus one; (ii) a dequeued
unvisited entry with depth strictly above `max_depth` is skipped with no
state change other than the pop (its depth is not clipped); (iii) hence
every saved page record of a run has depth at most `max_depth`. -/
theorem claim_C2_depth_discipline (env : CrawlEnv) (cfg : CrawlerCfg) :
    (∀ (s : CrawlerState) (url : String) (depth : Nat) (e : String × Nat),
        e ∈ (crawl_page env cfg s url depth).queue → e ∈ s.queue ∨ e.2 = depth + 1) ∧
    (∀ (fuel : Nat) (s : CrawlerState) (url : String) (depth : Nat)
        (rest : List (String × Nat)),
        s.queue = (url, depth) :: rest → s.total_crawled < cfg.max_pages →
        url ∉ s.visited → cfg.max_depth < depth →
        crawl env cfg (fuel + 1) s = crawl env cfg fuel { s with queue := rest }) ∧
    (∀ (fuel : Nat) (loaded : List String),
        ∀ p ∈ (crawl env cfg fuel (initState cfg loaded)).saves,
          p.depth ≤ cfg.max_depth) := by
  refine ⟨?_, ?_, ?_⟩
  · intro s url depth e he
    obtain ⟨L, hL⟩ := crawl_page_queue env cfg s url depth
    rw [hL, List.mem_append] at he
    rcases he with he | he
    · exact Or.inl he
    · right
      simp only [List.mem_map] at he
      obtain ⟨l, hl, rfl⟩ := he
      rfl
  · exact crawl_skip_depth env cfg
  · intro fuel loaded p hp
    exact (crawlInv_crawl env cfg loaded fuel _ (crawlInv_initState cfg loaded)).depth_le p hp

/-- Witness for C2 at a concrete state: the depth-5 head entry is dropped by
a loop iteration (`max_depth = 2`). -/
theorem claim_C2_depth_discipline_witness :
    crawl envW cfgW 1 stateW = crawl envW cfgW 0 { stateW with queue := [] } :=
  (claim_C2_depth_discipline envW cfgW).2.1 0 stateW "http://a.onion/x" 5 []
    rfl (by decide) (by decide) (by decide)

/-- **C3** (confirmed): domain quota.  (i) In any run, the number of saved
page records whose URL's extracted hostname is `d` never exceeds
`max_pages_per_domain`, for every domain `d`; (ii) an admissible entry whose
URL yields no hostname from `extract_domain` is processed without any quota
check blocking it. -/
theorem claim_C3_domain_quota (env : CrawlEnv) (cfg : CrawlerCfg) :
    (∀ (fuel : Nat) (loaded : List String) (d : String),
        domainSaveCount (crawl env cfg fuel (initState cfg loaded)) d ≤
          cfg.max_pages_per_domain) ∧
    (∀ (fuel : Nat) (s : CrawlerState) (url : String) (depth : Nat)
        (rest : List (String × Nat)),
        s.queue = (url, depth) :: rest → s.total_crawled < cfg.max_pages →
        url ∉ s.visited → ¬ cfg.max_depth < depth → extract_domain url = none →
        crawl env cfg (fuel + 1) s =
          crawl env cfg fuel (crawl_page env cfg { s with queue := rest } url depth)) := by
  constructor
  · intro fuel loaded d
    have h := crawlInv_crawl env cfg loaded fuel _ (crawlInv_initState cfg loaded)
    rw [← h.counter_count d]
    exact h.counter_le d
  · exact crawl_admit_no_domain env cfg

/-- Witness for C3 at a concrete state: the `"nohost"` entry (null hostname)
is processed with no quota check applied. -/
theorem claim_C3_domain_quota_witness :
    crawl envW cfgW 1 stateW2 =
      crawl envW cfgW 0 (crawl_page envW cfgW { stateW2 with queue := [] } "nohost" 1) :=
  (claim_C3_domain_quota envW cfgW).2 0 stateW2 "nohost" 1 []
    rfl (by decide) (by decide) (by decide) (by decide)

/-! ## JSON storage statistics invariant -/

/-- The statistics equality claimed for the JSON backend. -/
def statsInv (st : JsonStats) : Prop :=
  st.total_pages = st.successful + st.errors

theorem statsInv_bumpStats (st : JsonStats) (e : Option String) (h : statsInv st) :
    statsInv (bumpStats st e) := by
  unfold statsInv at h ⊢
  unfold bumpStats
  cases errTruthy e <;> simp <;> omega

theorem statsInv_json_load_line (s : JsonState) (line : Option LoadedRec)
    (h : statsInv s.stats) : statsInv (json_load_line s line).stats := by
  cases line with
  | none => exact h
  | some d => exact statsInv_bumpStats _ _ h

theorem statsInv_json_load_existing (lines : List (Option LoadedRec)) :
    ∀ s : JsonState, statsInv s.stats → statsInv (json_load_existing s lines).stats := by
  induction lines with
  | nil => intro s h; exact h
  | cons line rest ih =>
    intro s h
    exact ih _ (statsInv_json_load_line s line h)

theorem statsInv_json_saves (ops : List (PageData × Bool)) :
    ∀ s : JsonState, statsInv s.stats →
      statsInv (ops.foldl (fun s pw => json_save_page s pw.1 pw.2) s).stats := by
  induction ops with
  | nil => intro s h; exact h
  | cons op rest ih =>
    intro s h
    exact ih _ (statsInv_bumpStats _ _ h)

/-- A complete life of a `JSONStorage` instance: construction over an
existing file, loading its decoded lines, then any sequence of `save_page`
calls (each with its own write success flag). -/
def json_run (file : List PageData) (lines : List (Option LoadedRec))
    (ops : List (PageData × Bool)) : JsonState :=
  ops.foldl (fun s pw => json_save_page s pw.1 pw.2)
    (json_load_existing (jsonInit file) lines)

/-- **C10** (confirmed): in the JSON backend, `total_pages = successful +
errors` holds initially and is preserved by loading existing records and by
every `save_page`, so it holds of every `get_stats` result. -/
theorem claim_C10_json_stats_invariant (file : List PageData)
    (lines : List (Option LoadedRec)) (ops : List (PageData × Bool)) :
    (json_get_stats (json_run file lines ops)).total_pages =
      (json_get_stats (json_run file lines ops)).successful +
        (json_get_stats (json_run file lines ops)).errors := by
  have h0 : statsInv (jsonInit file).stats := by
    simp [jsonInit, statsInv]
  exact statsInv_json_saves ops _ (statsInv_json_load_existing lines _ h0)

/-! ## Persistence save idempotence (C5) -/

/-- A concrete page record with one outgoing link. -/
def pageW : PageData :=
  { url := "http://a.onion/x", status := 200, depth := 1,
    timestamp := "2024-01-01T00:00:00", error := none, title := "t",
    text_preview := "p", meta := [("description", "d")],
    links := ["http://a.onion/y"] }

/-- **C5 counterexample**: saving the same record twice does not leave either
backend in the state one save leaves it in — the JSON backend appends a
second copy of the record line, and the SQLite backend inserts a second copy
of every link row. -/
theorem claim_C5_counterexample :
    json_save_page (json_save_page (jsonInit []) pageW true) pageW true ≠
      json_save_page (jsonInit []) pageW true ∧
    sqlite_save_page (sqlite_save_page { pages := [], links := [], visited := [] } pageW)
        pageW ≠
      sqlite_save_page { pages := [], links := [], visited := [] } pageW := by
  constructor
  · intro h
    have := congrArg (fun s => s.file.length) h
    simp [json_save_page, jsonInit] at this
  · intro h
    have := congrArg (fun s => s.links.length) h
    simp [sqlite_save_page, pageW] at this

/-- **C5 amended**: re-saving a record with the same `url` is idempotent for
the SQLite `pages` table (`INSERT OR REPLACE` on the unique `url` column
overwrites, no duplicate row) and for both backends' in-memory visited sets,
but it is not idempotent for the backends as a whole: the SQLite `links`
table receives a second copy of the link rows and the JSON backend appends a
second record line (and counts it again in its statistics). -/
theorem claim_C5_save_idempotence_amended (s : SqliteState) (js : JsonState)
    (p : PageData) :
    (sqlite_save_page (sqlite_save_page s p) p).pages = (sqlite_save_page s p).pages ∧
    (sqlite_save_page (sqlite_save_page s p) p).visited = (sqlite_save_page s p).visited ∧
    (sqlite_save_page (sqlite_save_page s p) p).links =
      (sqlite_save_page s p).links ++ p.links.map (fun l => (p.url, l)) ∧
    (json_save_page (json_save_page js p true) p true).file = js.file ++ [p, p] ∧
    (json_save_page (json_save_page js p true) p true).visited =
      (json_save_page js p true).visited ∧
    (json_save_page (json_save_page js p true) p true).stats.total_pages =
      js.stats.total_pages + 2 := by
  have hsetAdd : setAdd (setAdd s.visited p.url) p.url = setAdd s.visited p.url := by
    unfold setAdd
    by_cases h : p.url ∈ s.visited
    · simp [h]
    · simp [h]
  have hsetAddJ : setAdd (setAdd js.visited p.url) p.url = setAdd js.visited p.url := by
    unfold setAdd
    by_cases h : p.url ∈ js.visited
    · simp [h]
    · simp [h]
  refine ⟨?_, ?_, ?_, ?_, ?_, ?_⟩
  · simp only [sqlite_save_page, List.filter_append]
    have hrow : ((fun r => r.url != p.url) (rowOfPage p)) = false := by
      simp [rowOfPage]
    have hfilter : ∀ l : List PageRow,
        (l.filter (fun r => r.url != p.url)).filter (fun r => r.url != p.url) =
          l.filter (fun r => r.url != p.url) := by
      intro l
      rw [List.filter_filter]
      simp
    simp [List.filter_cons, hrow, hfilter]
  · simp [sqlite_save_page, hsetAdd]
  · simp [sqlite_save_page]
  · simp [json_save_page]
  · simp [json_save_page, hsetAddJ]
  · simp [json_save_page, bumpStats]

/-! ## Fetcher totality (C6) -/

/-- **C6 counterexample**: `TorClient.fetch` does raise — calling it on a
client whose session was never initialized raises `RuntimeError` instead of
returning a result value, irrespective of what the network would do. -/
theorem claim_C6_counterexample :
    TorClient.fetch false "http://a.onion" [] 30 NetOutcome.timeout =
      Except.error "TorClient ei ole alustettu. Käytä async with -kontekstia." := rfl

/-- **C6 amended**: on an initialized client, `fetch` never raises: every
network outcome is returned as a result value; the timeout, client-error and
other-exception outcomes yield `status = 0` with a non-null error string,
and a received response yields the response's status with a null error. -/
theorem claim_C6_fetch_totality_amended (url : String)
    (headers : List (String × String)) (timeout : Nat) :
    (∀ outcome : NetOutcome, ∃ r : FetchResult,
        TorClient.fetch true url headers timeout outcome = .ok r) ∧
    (∀ outcome : NetOutcome, outcome.isFailure = true →
        ∃ r : FetchResult,
          TorClient.fetch true url headers timeout outcome = .ok r ∧
          r.status = 0 ∧ r.error.isSome = true) ∧
    (∀ (finalUrl : String) (status : Nat) (hdrs : List (String × String))
        (body : Except String String),
        ∃ r : FetchResult,
          TorClient.fetch true url headers timeout
              (NetOutcome.response finalUrl status hdrs body) = .ok r ∧
          r.status = status ∧ r.error = none) := by
  refine ⟨?_, ?_, ?_⟩
  · intro outcome
    cases outcome <;> exact ⟨_, rfl⟩
  · intro outcome hf
    cases outcome with
    | response finalUrl status hdrs body => simp [NetOutcome.isFailure] at hf
    | timeout => exact ⟨_, rfl, rfl, rfl⟩
    | clientError m => exact ⟨_, rfl, rfl, rfl⟩
    | otherError m => exact ⟨_, rfl, rfl, rfl⟩
  · intro finalUrl status hdrs body
    exact ⟨_, rfl, rfl, rfl⟩

/-- Witness for the amended C6 at the timeout outcome. -/
theorem claim_C6_fetch_totality_amended_witness :
    ∃ r : FetchResult,
      TorClient.fetch true "http://a.onion" [] 30 NetOutcome.timeout = .ok r ∧
      r.status = 0 ∧ r.error.isSome = true :=
  (claim_C6_fetch_totality_amended "http://a.onion" [] 30).2.1 NetOutcome.timeout rfl

/-! ## Seeding (C8) -/

/-- A configuration whose start URL is not in normal form. -/
def cfgW8 : CrawlerCfg :=
  { start_url := "http://seed.onion/page/", max_depth := 2, max_pages := 10,
    max_pages_per_domain := 5, allowed_domains := [], follow_external_onion := true }

/-- **C8 counterexample**: `initialize` pushes the raw configured start URL
onto the frontier, which differs from the normalized form of that URL, so
the URL entering the frontier is not the normalized start URL. -/
theorem claim_C8_counterexample :
    (initState cfgW8 []).queue = [("http://seed.onion/page/", 0)] ∧
    normalize_url "http://seed.onion/page/" none = some "http://seed.onion/page" ∧
    ("http://seed.onion/page" : String) ≠ "http://seed.onion/page/" := by
  refine ⟨rfl, by decide, by decide⟩

/-- **C8 amended**: seeding sets the start domain to the hostname extracted
from the raw configured start URL and pushes the pair `(startURL, 0)` onto
the otherwise-empty frontier, without normalizing: the URL that enters the
frontier is the configured start URL exactly as configured. -/
theorem claim_C8_seeding_amended (cfg : CrawlerCfg) (loaded : List String) :
    (initState cfg loaded).queue = [(cfg.start_url, 0)] ∧
    (initState cfg loaded).start_domain = extract_domain cfg.start_url ∧
    (initState cfg loaded).visited = loaded ∧
    (initState cfg loaded).total_crawled = 0 ∧
    (initState cfg loaded).saves = [] :=
  ⟨rfl, rfl, rfl, rfl, rfl⟩

/-! ## Text-preview bound (C9) -/

/-- The `StorageConfig` dataclass of `src/config.py` (defaults as written
there). -/
structure StorageConfig where
  storage_type : String
  output_dir : String
  json_filename : String
  sqlite_filename : String
  save_html_content : Bool
  max_content_length : Nat
  deriving Repr, DecidableEq

/-- A configuration with a small `max_content_length`. -/
def storageCfgW : StorageConfig :=
  { storage_type := "json", output_dir := "./data",
    json_filename := "crawled_pages.json", sqlite_filename := "crawler.db",
    save_html_content := false, max_content_length := 100 }

/-- `sanitize_html_text` can exceed `max_length` by the three ellipsis
characters, but never by more. -/
theorem string_mk_length (l : List Char) : (String.mk l).length = l.length := rfl

theorem sanitize_html_text_length (text : String) (m : Nat) :
    (sanitize_html_text text m).length ≤ m + 3 := by
  unfold sanitize_html_text
  split
  · simp
  · dsimp only
    split
    · rename_i hlen
      rw [string_mk_length, List.length_append, List.length_take]
      have h3 : "...".data.length = 3 := rfl
      rw [h3]
      omega
    · rename_i hlen
      rw [string_mk_length]
      omega

set_option maxRecDepth 4000 in
/-- **C9 counterexample**: the parser's text preview is not bounded by the
configured maximum content length — with `max_content_length = 100`, a page
whose text is 200 non-whitespace characters gets a 200-character preview. -/
theorem claim_C9_counterexample :
    ¬ ((extract_text_preview (String.mk (List.replicate 200 'a'))).length ≤
        storageCfgW.max_content_length) := by decide

/-- **C9 amended**: the text preview is bounded by `503 = 500 + 3`: the
parser truncates at its own hard-coded `max_length = 500` (the configured
`max_content_length` is never consulted), and when the collapsed, stripped
page text exceeds 500 characters the preview is its first 500 characters
with the ellipsis marker `"..."` appended. -/
theorem claim_C9_text_preview_amended (text : String) :
    (extract_text_preview text).length ≤ 503 ∧
    (500 < (pyStrip (collapseWs text.data)).length →
      extract_text_preview text =
        String.mk ((pyStrip (collapseWs text.data)).take 500 ++ "...".data)) := by
  constructor
  · exact sanitize_html_text_length text 500
  · intro hlen
    have htext : ¬ text.isEmpty = true := by
      intro he
      have hdata : text.data = [] := by
        rw [String.isEmpty_iff] at he
        rw [he]
      rw [hdata] at hlen
      simp [collapseWs, collapseWsAux, pyStrip] at hlen
    unfold extract_text_preview sanitize_html_text
    rw [if_neg htext, if_pos hlen]

set_option maxRecDepth 8000 in
/-- Witness for the amended C9 at a 600-character text: the preview is the
truncated 500 characters plus the ellipsis. -/
theorem claim_C9_text_preview_amended_witness :
    extract_text_preview (String.mk (List.replicate 600 'a')) =
      String.mk ((pyStrip (collapseWs (String.mk (List.replicate 600 'a')).data)).take 500
        ++ "...".data) :=
  (claim_C9_text_preview_amended (String.mk (List.replicate 600 'a'))).2 (by decide)

/-! ## Link Filter semantics (C4) -/

/-- The link-eligibility predicate exactly as the claim words it (spec side):
the host ends in `.onion`; if `allowedDomains` is non-empty the host is a
member; if `followExternalOnion` is false the host equals `startDomain` —
with the last conjunct applying regardless of other policy fields. -/
def linkEligibleClaimed (allowed : List String) (follow : Bool)
    (base : Option String) (link : String) : Bool :=
  is_onion_url link &&
  (allowed.isEmpty || hostnameMem link allowed) &&
  (follow || urlHostname link == base)

/-- The link-eligibility predicate the code actually implements: the
same-domain restriction additionally requires `startDomain` to be a
non-null, non-empty string (Python truthiness of `base_domain`). -/
def linkEligible (allowed : List String) (follow : Bool)
    (base : Option String) (link : String) : Bool :=
  is_onion_url link &&
  (allowed.isEmpty || hostnameMem link allowed) &&
  (follow || !optTruthy base || urlHostname link == base)

/-- **C4 counterexample**: with `followExternalOnion = false` and a null
`startDomain`, the filter keeps a link whose host (being a hostname) cannot
equal the null start domain — the claimed same-domain restriction is not
applied when `startDomain` is null. -/
theorem claim_C4_counterexample :
    filter_onion_links ["http://a.onion/x"] [] false none = ["http://a.onion/x"] ∧
    List.filter (linkEligibleClaimed [] false none) ["http://a.onion/x"] = [] := by
  constructor
  · decide
  · decide

/-- **C4 amended**: for every input link list and policy, the filter returns
exactly the links satisfying the conjunction of three predicates — the host
ends in `.onion`; if `allowedDomains` is non-empty the host is a member of
`allowedDomains`; and if `followExternalOnion` is false *and* `startDomain`
is a non-null, non-empty string, the host equals `startDomain` (a null or
empty `startDomain` disables the same-domain restriction and such links are
admitted). -/
theorem claim_C4_link_filter_amended (links : List String) (allowed : List String)
    (follow : Bool) (base : Option String) :
    filter_onion_links links allowed follow base =
      links.filter (linkEligible allowed follow base) := by
  induction links with
  | nil => rfl
  | cons link rest ih =>
    rw [List.filter_cons]
    show (if !is_onion_url link then filter_onion_links rest allowed follow base
      else if !allowed.isEmpty && !hostnameMem link allowed then
        filter_onion_links rest allowed follow base
      else if (!follow && optTruthy base) && (urlHostname link != base) then
        filter_onion_links rest allowed follow base
      else link :: filter_onion_links rest allowed follow base) = _
    cases h1 : is_onion_url link with
    | false => simp [linkEligible, h1, ih]
    | true =>
      cases h2 : (allowed.isEmpty || hostnameMem link allowed) with
      | false =>
        have h2' : (!allowed.isEmpty && !hostnameMem link allowed) = true := by
          rw [← Bool.not_or, h2]
          rfl
        simp [linkEligible, h1, h2, h2', ih]
      | true =>
        have h2' : (!allowed.isEmpty && !hostnameMem link allowed) = false := by
          rw [← Bool.not_or, h2]
          rfl
        cases h3 : (follow || !optTruthy base || urlHostname link == base) with
        | false =>
          have h3' : ((!follow && optTruthy base) && (urlHostname link != base)) = true := by
            simp only [Bool.or_eq_false_iff] at h3
            have hfol : follow = false := h3.1.1
            have hbase : optTruthy base = true := by
              have hnb := h3.1.2
              cases hob : optTruthy base with
              | true => rfl
              | false => rw [hob] at hnb; exact absurd hnb (by simp)
            simp [hfol, hbase, bne, h3.2]
          simp [linkEligible, h1, h2, h3, h2', h3', ih]
        | true =>
          have h3' : ((!follow && optTruthy base) && (urlHostname link != base)) = false := by
            cases hf : follow with
            | true => simp [hf]
            | false =>
              cases hb : optTruthy base with
              | false => simp [hb]
              | true =>
                have heq : (urlHostname link == base) = true := by
                  rw [hf, hb] at h3
                  simpa using h3
                simp [bne, heq]
          simp [linkEligible, h1, h2, h3, h2', h3', ih]

/-! ## URL normalization trailing-slash rule (C7) -/

theorem takeWhile_eq_self_of_all {p : Char → Bool} :
    ∀ l : List Char, (∀ c ∈ l, p c = true) → l.takeWhile p = l
  | [], _ => rfl
  | c :: rest, h => by
    rw [List.takeWhile_cons, h c (List.mem_cons_self c rest)]
    simp only [if_true]
    rw [takeWhile_eq_self_of_all rest (fun x hx => h x (List.mem_cons_of_mem c hx))]

theorem dropWhile_eq_nil_of_all {p : Char → Bool} :
    ∀ l : List Char, (∀ c ∈ l, p c = true) → l.dropWhile p = []
  | [], _ => rfl
  | c :: rest, h => by
    rw [List.dropWhile_cons, h c (List.mem_cons_self c rest)]
    simp only [if_true]
    exact dropWhile_eq_nil_of_all rest (fun x hx => h x (List.mem_cons_of_mem c hx))

theorem splitOnFirst_of_not_mem (sep : Char) (l : List Char) (h : sep ∉ l) :
    splitOnFirst sep l = (l, []) := by
  unfold splitOnFirst
  have hall : ∀ c ∈ l, (c != sep) = true := by
    intro c hc
    have : c ≠ sep := fun he => h (he ▸ hc)
    simpa [bne] using this
  rw [takeWhile_eq_self_of_all l hall, dropWhile_eq_nil_of_all l hall]
  rfl

theorem splitScheme_snd_suffix (l d : List Char) : (splitScheme l d).2 <:+ l := by
  unfold splitScheme
  split
  · split
    · exact List.drop_suffix _ l
    · exact List.suffix_refl l
  · exact List.suffix_refl l

theorem splitNetloc_snd_suffix (l : List Char) : (splitNetloc l).2 <:+ l := by
  unfold splitNetloc
  split
  · rename_i rest
    exact (List.dropWhile_suffix _).trans
      ((List.suffix_cons '/' rest).trans (List.suffix_cons '/' ('/' :: rest)))
  · exact List.suffix_refl l

theorem contains_false_of_not_mem {c : Char} {l : List Char} (h : c ∉ l) :
    l.contains c = false := by
  simpa using h

/-- For a URL whose sanitization is the identity and which has no `'#'` or
`'?'`, the path component `urlsplit` extracts is the remainder after the
scheme and netloc splits — in particular a suffix of the URL. -/
theorem urlsplitE_plain (l d : List Char) (parts : UrlParts)
    (hsan : urlSanitize l = l) (hq : '?' ∉ l) (hf : '#' ∉ l)
    (h : urlsplitE l d = .ok parts) :
    parts.path = (splitNetloc (splitScheme l d).2).2 ∧ parts.path <:+ l := by
  have hr1 : (splitScheme l d).2 <:+ l := splitScheme_snd_suffix l d
  have hr2 : (splitNetloc (splitScheme l d).2).2 <:+ l :=
    (splitNetloc_snd_suffix _).trans hr1
  have hf2 : splitOnFirst '#' (splitNetloc (splitScheme l d).2).2 =
      ((splitNetloc (splitScheme l d).2).2, []) :=
    splitOnFirst_of_not_mem _ _ (fun hc => hf (hr2.subset hc))
  have hq2 : splitOnFirst '?' (splitNetloc (splitScheme l d).2).2 =
      ((splitNetloc (splitScheme l d).2).2, []) :=
    splitOnFirst_of_not_mem _ _ (fun hc => hq (hr2.subset hc))
  unfold urlsplitE at h
  rw [hsan] at h
  rcases hss : splitScheme l d with ⟨schemeV, r1⟩
  rw [hss] at h hr1 hr2 hf2 hq2
  simp only [] at h hr1 hr2 hf2 hq2
  rcases hsn : splitNetloc r1 with ⟨netlocV, r2⟩
  rw [hsn] at h hr2 hf2 hq2
  simp only [] at h hr2 hf2 hq2
  simp only [hf2, hq2] at h
  split at h
  · cases h
  · have := Except.ok.inj h
    rw [← this]
    exact ⟨rfl, hr2⟩

/-- The same for `urlparse`: with additionally no `';'`, no path parameters
are split off, so the parsed path is that same suffix. -/
theorem urlparseE_plain_path (l : List Char) (parts : UrlParts)
    (hsan : urlSanitize l = l) (hq : '?' ∉ l) (hf : '#' ∉ l) (hsemi : ';' ∉ l)
    (hparse : urlparseE l [] = .ok parts) : parts.path <:+ l := by
  unfold urlparseE at hparse
  rcases husl : urlsplitE l [] with e | s
  · rw [husl] at hparse
    cases hparse
  · rw [husl] at hparse
    obtain ⟨hpath, hsuf⟩ := urlsplitE_plain l [] s hsan hq hf husl
    have hnosemi : s.path.contains ';' = false :=
      contains_false_of_not_mem (fun hc => hsemi (hsuf.subset hc))
    simp only [hnosemi, Bool.and_false, Bool.false_eq_true, if_false] at hparse
    have := Except.ok.inj hparse
    rw [← this]
    exact hsuf

theorem rstripSlashes_append (l : List Char) :
    l = rstripSlashes l ++
      List.replicate (l.reverse.takeWhile (fun c => c == '/')).length '/' := by
  have hsplit := List.takeWhile_append_dropWhile (fun c => c == '/') l.reverse
  have hrep : l.reverse.takeWhile (fun c => c == '/') =
      List.replicate (l.reverse.takeWhile (fun c => c == '/')).length '/' := by
    refine List.eq_replicate_iff.mpr ⟨rfl, ?_⟩
    intro x hx
    have := List.mem_takeWhile_imp hx
    simpa using this
  calc l = l.reverse.reverse := (List.reverse_reverse l).symm
    _ = (l.reverse.takeWhile (fun c => c == '/') ++
          l.reverse.dropWhile (fun c => c == '/')).reverse := by rw [hsplit]
    _ = (l.reverse.dropWhile (fun c => c == '/')).reverse ++
          (l.reverse.takeWhile (fun c => c == '/')).reverse := List.reverse_append _ _
    _ = rstripSlashes l ++
          List.replicate (l.reverse.takeWhile (fun c => c == '/')).length '/' := by
        rw [rstripSlashes]
        congr 1
        rw [hrep, List.reverse_replicate, List.length_replicate]

theorem rstripSlashes_getLast? (l : List Char) :
    (rstripSlashes l).getLast? ≠ some '/' := by
  intro hlast
  unfold rstripSlashes at hlast
  rw [List.getLast?_reverse] at hlast
  have := List.head?_dropWhile_not (fun c => c == '/') l.reverse
  rw [hlast] at this
  simp at this

theorem getLast?_of_suffix {l₁ l₂ : List Char} (h : l₁ <:+ l₂) {c : Char}
    (hl : l₁.getLast? = some c) : l₂.getLast? = some c := by
  obtain ⟨t, rfl⟩ := h
  have hne : l₁ ≠ [] := by
    intro he
    rw [he] at hl
    cases hl
  rw [List.getLast?_append_of_ne_nil t hne]
  exact hl

theorem trailing_count_pos (l : List Char) (h : l.getLast? = some '/') :
    1 ≤ (l.reverse.takeWhile (fun c => c == '/')).length := by
  have hh : l.reverse.head? = some '/' := by
    rw [List.head?_reverse]
    exact h
  cases hrev : l.reverse with
  | nil => rw [hrev] at hh; cases hh
  | cons c rest =>
    rw [hrev, List.head?_cons] at hh
    injection hh with hh
    subst hh
    rw [List.takeWhile_cons]
    simp

/-- With no fragment, `normalize_url` evaluates to the conditional rstrip of
the input. -/
theorem urldefragE_no_frag (l : List Char) (hf : l.contains '#' = false) :
    urldefragE l = .ok l := by
  unfold urldefragE
  rw [hf]
  rfl

theorem normalize_urlE_eval (l : List Char) (parts : UrlParts)
    (hf : l.contains '#' = false) (hparse : urlparseE l [] = .ok parts) :
    normalize_urlE l none =
      .ok (if !parts.path.isEmpty && parts.path != ['/'] &&
            parts.path.getLast? == some '/' then rstripSlashes l else l) := by
  unfold normalize_urlE
  simp only [urldefragE_no_frag l hf, hparse]
  split <;> rfl

/-- **C7 counterexample**: `normalize_url` removes *all* trailing slashes
(`url.rstrip('/')`), not exactly one — a path ending in two slashes loses
both, where the claim requires keeping all but the last. -/
theorem claim_C7_counterexample :
    normalize_url "http://a.onion/x//" none = some "http://a.onion/x" ∧
    ("http://a.onion/x" : String) ≠ "http://a.onion/x/" := by
  exact ⟨by decide, by decide⟩

/-- **C7 amended**: for a URL with no fragment, query, path parameter or
control characters, whose parsed path ends in `'/'`: if the path is exactly
`"/"` the URL is returned unchanged (slash intact); otherwise `normalize_url`
removes *all* trailing slashes of the URL string — at least one, and the
result ends in no slash — rather than exactly one. -/
theorem claim_C7_trailing_slash_amended (url : String) (parts : UrlParts)
    (hsan : urlSanitize url.data = url.data) (hq : '?' ∉ url.data)
    (hf : '#' ∉ url.data) (hsemi : ';' ∉ url.data)
    (hparse : urlparseE url.data [] = Except.ok parts) :
    (parts.path = ['/'] → normalize_url url none = some url) ∧
    (parts.path.getLast? = some '/' → parts.path ≠ ['/'] →
      ∃ (r : List Char) (k : Nat), normalize_url url none = some (String.mk r) ∧
        1 ≤ k ∧ url.data = r ++ List.replicate k '/' ∧ r.getLast? ≠ some '/') := by
  have hcf : url.data.contains '#' = false := contains_false_of_not_mem hf
  have heval := normalize_urlE_eval url.data parts hcf hparse
  constructor
  · intro hroot
    have hcond : (!parts.path.isEmpty && parts.path != ['/'] &&
        parts.path.getLast? == some '/') = false := by
      rw [hroot]
      simp
    rw [hcond] at heval
    simp only [Bool.false_eq_true, if_false] at heval
    show (match normalize_urlE url.data none with
      | Except.ok r => some (String.mk r)
      | Except.error _ => none) = some url
    rw [heval]
  · intro hlast hnotroot
    have hne : ¬ parts.path.isEmpty = true := by
      intro he
      rw [List.isEmpty_iff] at he
      rw [he] at hlast
      cases hlast
    have hcond : (!parts.path.isEmpty && parts.path != ['/'] &&
        parts.path.getLast? == some '/') = true := by
      simp [hne, hnotroot, hlast, bne]
    rw [hcond] at heval
    simp only [if_true] at heval
    refine ⟨rstripSlashes url.data,
      (url.data.reverse.takeWhile (fun c => c == '/')).length, ?_, ?_, ?_, ?_⟩
    · show (match normalize_urlE url.data none with
        | Except.ok r => some (String.mk r)
        | Except.error _ => none) = some (String.mk (rstripSlashes url.data))
      rw [heval]
    · have hsuf := urlparseE_plain_path url.data parts hsan hq hf hsemi hparse
      exact trailing_count_pos url.data (getLast?_of_suffix hsuf hlast)
    · exact rstripSlashes_append url.data
    · exact rstripSlashes_getLast? url.data

/-- Witness for the amended C7 at `"http://a.onion/x//"`: both trailing
slashes are removed. -/
theorem claim_C7_trailing_slash_amended_witness :
    ∃ (r : List Char) (k : Nat),
      normalize_url "http://a.onion/x//" none = some (String.mk r) ∧
      1 ≤ k ∧ "http://a.onion/x//".data = r ++ List.replicate k '/' ∧
      r.getLast? ≠ some '/' :=
  (claim_C7_trailing_slash_amended "http://a.onion/x//"
      { scheme := "http".data, netloc := "a.onion".data, path := "/x//".data,
        params := [], query := [], fragment := [] }
      (by decide) (by decide) (by decide) (by decide) (by decide)).2
    (by decide) (by decide)

end TorCrawler
